import Mathlib

/-!
# Verification of the memorylane storage core

Shallow embedding of the storage layer of the `memorylane` application.
The source of truth is `src/src-tauri/src/lib.rs`, whose substance is a
single SQL migration (version 1, "create_initial_tables") declaring three
SQLite tables (`events`, `items`, `canvas_items`) together with their
`CHECK`, `REFERENCES`, `NOT NULL`, `DEFAULT` and `PRIMARY KEY` clauses,
three indexes, and the registration of that migration against the
connection string `"sqlite:lifeline.db"`.

Rows are embedded as structures whose field types reflect the SQL
nullability (`Option` for nullable columns); `REAL` columns are embedded
as `ℚ`, `INTEGER` as `Int`, `TEXT` as `String`.  A `Store` is the triple
of row lists.  `schemaValid` captures exactly the declarative constraints
of the schema, and the raw insert operations accept a row exactly when
the resulting store satisfies those constraints, which is the
storage-engine-level write interface the schema defines.

The application-level operations described by the specification
(`createEvent`, `updateEvent`, `deleteEvent`, `createItem`, `placeItem`)
are not part of the Rust source; they are modelled from the
specification's words and marked as such in their doc comments.
-/

/-- Row of the `events` table (source: `CREATE TABLE events`). -/
structure EventRow where
  id : String
  type : String
  title : Option String
  start_at : String
  end_at : Option String
  parent_id : Option String
  cover_media_id : Option String
  created_at : String
  updated_at : String
  deriving Repr, DecidableEq

/-- Row of the `items` table (source: `CREATE TABLE items`). -/
structure ItemRow where
  id : String
  event_id : String
  item_type : String
  content : String
  caption : Option String
  happened_at : Option String
  place_lat : Option ℚ
  place_lng : Option ℚ
  place_label : Option String
  deriving Repr, DecidableEq

/-- Row of the `canvas_items` table (source: `CREATE TABLE canvas_items`). -/
structure CanvasItemRow where
  event_id : String
  item_id : String
  x : ℚ
  y : ℚ
  scale : ℚ
  rotation : ℚ
  z_index : Int
  deriving Repr, DecidableEq

/-- The persisted state: the three tables of the schema. -/
structure Store where
  events : List EventRow
  items : List ItemRow
  canvas_items : List CanvasItemRow
  deriving Repr, DecidableEq

/-- The literal set of the `CHECK(type IN ('year','period','event','item'))` clause. -/
def eventKinds : List String := ["year", "period", "event", "item"]

/-- The literal set of the `CHECK(item_type IN ('text','photo','video','link'))` clause. -/
def itemTypes : List String := ["text", "photo", "video", "link"]

/-- Position of a kind in the fixed order year → period → event → item;
strings outside the enumeration are mapped past the end. -/
def kindLevel (k : String) : Nat :=
  if k = "year" then 0
  else if k = "period" then 1
  else if k = "event" then 2
  else if k = "item" then 3
  else 4

/-- The `parent_id TEXT REFERENCES events(id)` clause: a present parent
reference must resolve to some event row. -/
def parentRef (events : List EventRow) : Option String → Prop
  | none => True
  | some p => ∃ e ∈ events, e.id = p

instance parentRef.instDec (events : List EventRow) :
    (o : Option String) → Decidable (parentRef events o)
  | none => isTrue trivial
  | some p => inferInstanceAs (Decidable (∃ e ∈ events, e.id = p))

/-- Exactly the declarative constraints of the SQL schema: the three
primary keys, the two `CHECK` enum clauses, and the `REFERENCES` clauses. -/
def schemaValid (s : Store) : Prop :=
  (s.events.map (·.id)).Nodup ∧
  (s.items.map (·.id)).Nodup ∧
  (s.canvas_items.map (fun c => (c.event_id, c.item_id))).Nodup ∧
  (∀ e ∈ s.events, e.type ∈ eventKinds) ∧
  (∀ e ∈ s.events, parentRef s.events e.parent_id) ∧
  (∀ i ∈ s.items, i.item_type ∈ itemTypes) ∧
  (∀ i ∈ s.items, ∃ e ∈ s.events, e.id = i.event_id) ∧
  (∀ c ∈ s.canvas_items, ∃ e ∈ s.events, e.id = c.event_id) ∧
  (∀ c ∈ s.canvas_items, ∃ i ∈ s.items, i.id = c.item_id)

instance schemaValid.instDec (s : Store) : Decidable (schemaValid s) := by
  unfold schemaValid
  infer_instance

/-- Error surfaced by the storage engine when a declarative constraint fails. -/
inductive SqlError where
  | constraintViolation
  deriving Repr, DecidableEq

instance exceptDecEq {ε α : Type} [DecidableEq ε] [DecidableEq α] :
    DecidableEq (Except ε α) := fun x y =>
  match x, y with
  | .ok a, .ok b =>
    if h : a = b then isTrue (by rw [h]) else isFalse (by intro hc; cases hc; exact h rfl)
  | .error a, .error b =>
    if h : a = b then isTrue (by rw [h]) else isFalse (by intro hc; cases hc; exact h rfl)
  | .ok _, .error _ => isFalse (by intro hc; cases hc)
  | .error _, .ok _ => isFalse (by intro hc; cases hc)

/-- Raw storage-engine insert into `events`: the row is appended and the
write is accepted exactly when the schema's declarative constraints hold
of the result. -/
def insertEventRaw (s : Store) (e : EventRow) : Except SqlError Store :=
  if schemaValid { s with events := s.events ++ [e] }
  then .ok { s with events := s.events ++ [e] }
  else .error .constraintViolation

/-- Raw storage-engine insert into `items`. -/
def insertItemRaw (s : Store) (i : ItemRow) : Except SqlError Store :=
  if schemaValid { s with items := s.items ++ [i] }
  then .ok { s with items := s.items ++ [i] }
  else .error .constraintViolation

/-- Raw storage-engine insert into `canvas_items`.  Columns with a SQL
`DEFAULT` clause (`x`, `y` default 0, `scale` default 1, `rotation`
default 0, `z_index` default 0) may be omitted by the caller, in which
case the schema's default is stored. -/
def insertCanvasItemRaw (s : Store) (eventId itemId : String)
    (x y scale rotation : Option ℚ) (zIndex : Option Int) : Except SqlError Store :=
  if schemaValid { s with canvas_items :=
      s.canvas_items ++ [⟨eventId, itemId, x.getD 0, y.getD 0, scale.getD 1,
        rotation.getD 0, zIndex.getD 0⟩] }
  then .ok { s with canvas_items :=
      s.canvas_items ++ [⟨eventId, itemId, x.getD 0, y.getD 0, scale.getD 1,
        rotation.getD 0, zIndex.getD 0⟩] }
  else .error .constraintViolation

/-! ## Schema registry (migrations)

The database-file state: the recorded user version plus the presence and
contents of each table and index.  `none` means the table does not exist
yet.  The single migration of the source (`version: 1,
"create_initial_tables"`) issues `CREATE TABLE IF NOT EXISTS` /
`CREATE INDEX IF NOT EXISTS` statements, so an existing table is left
untouched and a missing one is created empty. -/
structure DbState where
  user_version : Nat
  events_table : Option (List EventRow)
  items_table : Option (List ItemRow)
  canvas_items_table : Option (List CanvasItemRow)
  idx_events_parent : Bool
  idx_events_start : Bool
  idx_items_event : Bool
  deriving Repr, DecidableEq

/-- Effect of the migration SQL of version 1: `CREATE TABLE IF NOT EXISTS`
for the three tables and `CREATE INDEX IF NOT EXISTS` for the three
indexes. -/
def createInitialTables (db : DbState) : DbState :=
  { db with
    events_table := some (db.events_table.getD []),
    items_table := some (db.items_table.getD []),
    canvas_items_table := some (db.canvas_items_table.getD []),
    idx_events_parent := true,
    idx_events_start := true,
    idx_items_event := true }

/-- The ordered migration list of the source: a single step, version 1,
description `"create_initial_tables"`, kind `Up`. -/
def migrations : List (Nat × String × (DbState → DbState)) :=
  [(1, "create_initial_tables", createInitialTables)]

/-- One step of the migration runner: a step is applied exactly when its
version exceeds the recorded version, and the new version is recorded. -/
def applyMigration (db : DbState) (m : Nat × String × (DbState → DbState)) : DbState :=
  if db.user_version < m.1 then { m.2.2 db with user_version := m.1 } else db

/-- The migration pass: apply every pending step in list order. -/
def applyMigrations (db : DbState) : DbState :=
  migrations.foldl applyMigration db

/-- A freshly created database file: version 0, no tables, no indexes. -/
def freshDb : DbState :=
  ⟨0, none, none, none, false, false, false⟩

/-! ## The `run` entry point's store registration

The source calls `.add_migrations("sqlite:lifeline.db", migrations)` with
a string literal: `run` takes no store-location parameter and registers
exactly one fixed connection string. -/

/-- The connection string hard-coded in `run`. -/
def dbConnectionString : String := "sqlite:lifeline.db"

/-- The store identifiers the `run` entry point registers the plugin for:
exactly the one hard-coded literal. -/
def runRegisteredStores : List String := [dbConnectionString]

/-! ## Concrete stores used as inputs to the schema-level claims -/

/-- The empty store (all three tables empty), the table contents right
after the initial migration on a fresh database. -/
def emptyStore : Store := ⟨[], [], []⟩

/-- An event row whose `parent_id` refers to its own `id`. -/
def cyclicRow : EventRow :=
  ⟨"a", "period", none, "2020-01-01", none, some "a", none, "t0", "t0"⟩

/-- The store holding exactly the self-referential row. -/
def cyclicStore : Store := ⟨[cyclicRow], [], []⟩

/-- A well-formed year event row used as a base for concrete stores. -/
def yearRow : EventRow :=
  ⟨"e1", "year", some "base", "2020-01-01", none, none, none, "t0", "t0"⟩

/-- An item row owned by `yearRow`. -/
def itemRow1 : ItemRow :=
  ⟨"i1", "e1", "text", "hello", none, none, none, none, none⟩

/-- A store with one event and one item and an empty canvas. -/
def baseStore : Store := ⟨[yearRow], [itemRow1], []⟩

/-! ## Claims C7, C8, C9, C10 -/

/-- C7: Applying the migration sequence to a store already at the latest
version is a no-op: running the migration pass twice in sequence from
version 0 yields the same final schema version and the same store state
as running it once (no duplicate side effects). -/
theorem c7_migrations_idempotent :
    (∀ db : DbState, applyMigrations (applyMigrations db) = applyMigrations db) ∧
    applyMigrations (applyMigrations freshDb) = applyMigrations freshDb ∧
    (applyMigrations freshDb).user_version = 1 := by
  refine ⟨?_, ?_, ?_⟩
  · intro db
    simp only [applyMigrations, migrations, List.foldl, applyMigration]
    by_cases h : db.user_version < 1 <;> simp [h]
  · simp only [applyMigrations, migrations, List.foldl, applyMigration]
    by_cases h : freshDb.user_version < 1 <;> simp [h]
  · rfl

/-- C8: A store state in which an event's `parent_id` chain forms a cycle
(here a self-reference `parent_id = id`) is reachable through the schema's
write operations: the raw insert of the self-referential row into the
empty store is accepted by every declarative constraint of the schema. -/
theorem c8_cycle_reachable :
    insertEventRaw emptyStore cyclicRow = .ok cyclicStore ∧
    cyclicRow ∈ cyclicStore.events ∧
    cyclicRow.parent_id = some cyclicRow.id := by
  refine ⟨?_, ?_, ?_⟩ <;> decide

/-- C9 counterexample: the claim says the store location is a configurable
input to `run`, so that any requested location is among the stores `run`
operates on; but `run` registers exactly the hard-coded literal
`"sqlite:lifeline.db"`, and the concrete location `"sqlite:other.db"` is
not registered. -/
theorem c9_location_not_configurable :
    "sqlite:other.db" ∉ runRegisteredStores ∧
    runRegisteredStores = ["sqlite:lifeline.db"] := by
  refine ⟨?_, ?_⟩ <;> decide

/-- C9 (amended): the `run` entry point operates on a single fixed,
hard-coded store identifier, the connection string `"sqlite:lifeline.db"`;
it takes no store-location configuration. -/
theorem c9_fixed_store_identifier :
    runRegisteredStores = [dbConnectionString] ∧ dbConnectionString = "sqlite:lifeline.db" :=
  ⟨rfl, rfl⟩

/-- C10: a `canvas_items` row inserted without explicit `x` and `y` values
is stored with position (0,0) by the schema's `DEFAULT 0` clauses: in any
store, if such an insert is accepted, the stored row for the pair carries
coordinates (0,0) (and the schema defaults `scale` 1, `rotation` 0,
`z_index` 0). -/
theorem c10_canvas_defaults (s s' : Store) (eventId itemId : String)
    (h : insertCanvasItemRaw s eventId itemId none none none none none = .ok s') :
    (⟨eventId, itemId, 0, 0, 1, 0, 0⟩ : CanvasItemRow) ∈ s'.canvas_items ∧
    ∃ c ∈ s'.canvas_items, c.event_id = eventId ∧ c.item_id = itemId ∧ c.x = 0 ∧ c.y = 0 := by
  unfold insertCanvasItemRaw at h
  split at h
  · cases h
    refine ⟨by simp [Option.getD], ?_⟩
    exact ⟨⟨eventId, itemId, 0, 0, 1, 0, 0⟩, by simp [Option.getD], rfl, rfl, rfl, rfl⟩
  · cases h

/-- Witness for C10: on the concrete `baseStore`, inserting a placement
for the pair ("e1","i1") with no coordinates succeeds and stores (0,0). -/
theorem c10_canvas_defaults_witness :
    insertCanvasItemRaw baseStore "e1" "i1" none none none none none =
      .ok ⟨[yearRow], [itemRow1], [⟨"e1", "i1", 0, 0, 1, 0, 0⟩]⟩ ∧
    ((⟨"e1", "i1", 0, 0, 1, 0, 0⟩ : CanvasItemRow) ∈
        (⟨[yearRow], [itemRow1], [⟨"e1", "i1", 0, 0, 1, 0, 0⟩]⟩ : Store).canvas_items ∧
      ∃ c ∈ (⟨[yearRow], [itemRow1], [⟨"e1", "i1", 0, 0, 1, 0, 0⟩]⟩ : Store).canvas_items,
        c.event_id = "e1" ∧ c.item_id = "i1" ∧ c.x = 0 ∧ c.y = 0) :=
  ⟨by decide, c10_canvas_defaults baseStore _ "e1" "i1" (by decide)⟩

/-! ## Spec-modelled Entity Store and Canvas Index operations

The Rust source under `src/` contains only the schema; the operation
layer the specification describes (§4.2, §4.3) is not part of it.  The
definitions below are therefore modelled from the specification's words
and say so in their doc comments. -/

/-- Modelled from the spec: the error kinds of §7 surfaced by the
application-level operations (the missing operation layer). -/
inductive StoreError where
  | validationError
  | notFoundError
  | invalidHierarchyError
  | conflictError
  deriving Repr, DecidableEq

/-- Modelled from the spec: "`end_at`, if present, must not precede
`start_at`"; ISO-8601 UTC text compares chronologically as strings. -/
def endOk (startAt : String) : Option String → Prop
  | none => True
  | some t => ¬ t < startAt

instance endOk.instDec (startAt : String) : (o : Option String) → Decidable (endOk startAt o)
  | none => isTrue trivial
  | some t => inferInstanceAs (Decidable (¬ t < startAt))

/-- Modelled from the spec: the hierarchy rule of §4.2 — an event may
have no parent only if it is a `year`, and a present parent must resolve
to an existing event whose kind is strictly above in the fixed order
year → period → event → item. -/
def parentOk (events : List EventRow) (kind : String) : Option String → Prop
  | none => kind = "year"
  | some p => kind ≠ "year" ∧ ∃ pe ∈ events, pe.id = p ∧ kindLevel pe.type < kindLevel kind

instance parentOk.instDec (events : List EventRow) (kind : String) :
    (o : Option String) → Decidable (parentOk events kind o)
  | none => inferInstanceAs (Decidable (kind = "year"))
  | some p =>
    inferInstanceAs (Decidable (kind ≠ "year" ∧ ∃ pe ∈ events, pe.id = p ∧ kindLevel pe.type < kindLevel kind))

/-- Modelled from the spec: the field set of `updateEvent(id, fields)`;
an outer `none` leaves the column unchanged. -/
structure EventFields where
  kind : Option String
  title : Option (Option String)
  start_at : Option String
  end_at : Option (Option String)
  parent_id : Option (Option String)
  cover_media_id : Option (Option String)
  deriving Repr, DecidableEq

/-- Modelled from the spec: applying an update's field set to a row;
`updated_at` is refreshed, `id` and `created_at` are never touched. -/
def applyFields (e : EventRow) (f : EventFields) (now : String) : EventRow :=
  ⟨e.id, f.kind.getD e.type, f.title.getD e.title, f.start_at.getD e.start_at,
    f.end_at.getD e.end_at, f.parent_id.getD e.parent_id,
    f.cover_media_id.getD e.cover_media_id, e.created_at, now⟩

/-- The events list with every row of the given id replaced by the
updated row. -/
def updatedEvents (s : Store) (id : String) (e' : EventRow) : List EventRow :=
  s.events.map (fun x => if x.id = id then e' else x)

/-- Modelled from the spec: `createEvent` (§4.2) — validates the enum
kind (ValidationError), `endAt >= startAt` when both present
(ValidationError), identifier freshness (the schema's primary key,
ConflictError), and parent existence plus hierarchy ordering
(InvalidHierarchyError), then persists the new row with both timestamps
set to `now`. -/
def createEvent (s : Store) (id kind : String) (title : Option String) (startAt : String)
    (endAt : Option String) (parentId coverMediaId : Option String) (now : String) :
    Except StoreError Store :=
  if kind ∈ eventKinds then
    if endOk startAt endAt then
      if ∃ e ∈ s.events, e.id = id then .error .conflictError
      else
        if parentOk s.events kind parentId then
          .ok { s with events :=
            ⟨id, kind, title, startAt, endAt, parentId, coverMediaId, now, now⟩ :: s.events }
        else .error .invalidHierarchyError
    else .error .validationError
  else .error .validationError

/-- Modelled from the spec: `updateEvent` (§4.2) — NotFoundError if the
id is absent, otherwise re-validates the updated row under the same
rules as `createEvent` (enum kind, end/start ordering, parent existence
and hierarchy ordering against the updated table), and — per §7, "no
invalid state is ever persisted" — that every child still sits strictly
below the row's (possibly changed) kind; refreshes `updated_at`. -/
def updateEvent (s : Store) (id : String) (f : EventFields) (now : String) :
    Except StoreError Store :=
  match s.events.find? (fun e => decide (e.id = id)) with
  | none => .error .notFoundError
  | some old =>
    if (applyFields old f now).type ∈ eventKinds then
      if endOk (applyFields old f now).start_at (applyFields old f now).end_at then
        if parentOk (updatedEvents s id (applyFields old f now))
            (applyFields old f now).type (applyFields old f now).parent_id then
          if ∀ c ∈ s.events, c.parent_id = some id →
              kindLevel (applyFields old f now).type < kindLevel c.type then
            .ok { s with events := updatedEvents s id (applyFields old f now) }
          else .error .invalidHierarchyError
        else .error .invalidHierarchyError
      else .error .validationError
    else .error .validationError

/-- Modelled from the spec: `createItem` (§4.2) — validates the enum
item type (ValidationError, §6), identifier freshness (ConflictError),
and that the owning event exists (NotFoundError). -/
def createItem (s : Store) (id eventId itemType content : String)
    (caption happenedAt : Option String) (placeLat placeLng : Option ℚ)
    (placeLabel : Option String) : Except StoreError Store :=
  if itemType ∈ itemTypes then
    if ∃ i ∈ s.items, i.id = id then .error .conflictError
    else
      if ∃ e ∈ s.events, e.id = eventId then
        .ok { s with items :=
          ⟨id, eventId, itemType, content, caption, happenedAt,
            placeLat, placeLng, placeLabel⟩ :: s.items }
      else .error .notFoundError
  else .error .validationError

/-- Modelled from the spec: `placeItem` (§4.3) — validates that the item
exists (NotFoundError) and that its `event_id` equals the given event
(ConflictError), then upserts: an existing placement for the
(event, item) pair is replaced rather than erroring. -/
def placeItem (s : Store) (eventId itemId : String) (x y scale rotation : ℚ)
    (zIndex : Int) : Except StoreError Store :=
  match s.items.find? (fun i => decide (i.id = itemId)) with
  | none => .error .notFoundError
  | some it =>
    if it.event_id = eventId then
      .ok { s with canvas_items :=
        ⟨eventId, itemId, x, y, scale, rotation, zIndex⟩ ::
          s.canvas_items.filter (fun c =>
            decide (¬(c.event_id = eventId ∧ c.item_id = itemId))) }
    else .error .conflictError

/-! ## Invariants named by the claims -/

/-- The type-hierarchy invariant of C1: every event's kind is in the enum
and its parent link obeys `parentOk` (a `year` has no parent; a non-year
has a parent resolving to an existing event of strictly preceding kind). -/
def hierarchyOk (s : Store) : Prop :=
  ∀ e ∈ s.events, e.type ∈ eventKinds ∧ parentOk s.events e.type e.parent_id

/-- The temporal invariant of C4: no event's `end_at` precedes its
`start_at`. -/
def timeOk (s : Store) : Prop :=
  ∀ e ∈ s.events, endOk e.start_at e.end_at

/-- The enum invariant of C6: every persisted `type` and `item_type`
is inside its literal set. -/
def enumOk (s : Store) : Prop :=
  (∀ e ∈ s.events, e.type ∈ eventKinds) ∧ (∀ i ∈ s.items, i.item_type ∈ itemTypes)

/-- The uniqueness invariant of C2: at most one `canvas_items` row per
(event_id, item_id) pair. -/
def canvasKeyNodup (s : Store) : Prop :=
  (s.canvas_items.map (fun c => (c.event_id, c.item_id))).Nodup

/-- Primary-key uniqueness of the `items` table. -/
def itemIdsNodup (s : Store) : Prop :=
  (s.items.map (·.id)).Nodup

/-- The referential invariant of C3: every placement's item exists and
belongs to the placement's event. -/
def canvasRefOk (s : Store) : Prop :=
  ∀ c ∈ s.canvas_items, ∃ i ∈ s.items, i.id = c.item_id ∧ i.event_id = c.event_id

instance hierarchyOk.instDec (s : Store) : Decidable (hierarchyOk s) := by
  unfold hierarchyOk
  infer_instance

instance timeOk.instDec (s : Store) : Decidable (timeOk s) := by
  unfold timeOk
  infer_instance

instance enumOk.instDec (s : Store) : Decidable (enumOk s) := by
  unfold enumOk
  infer_instance

instance canvasKeyNodup.instDec (s : Store) : Decidable (canvasKeyNodup s) := by
  unfold canvasKeyNodup
  infer_instance

instance itemIdsNodup.instDec (s : Store) : Decidable (itemIdsNodup s) := by
  unfold itemIdsNodup
  infer_instance

instance canvasRefOk.instDec (s : Store) : Decidable (canvasRefOk s) := by
  unfold canvasRefOk
  infer_instance

/-! ## Success characterizations of the modelled operations -/

lemma createEvent_ok {s s' : Store} {id kind : String} {title : Option String}
    {startAt : String} {endAt : Option String} {parentId coverMediaId : Option String}
    {now : String}
    (h : createEvent s id kind title startAt endAt parentId coverMediaId now = .ok s') :
    s'.events = ⟨id, kind, title, startAt, endAt, parentId, coverMediaId, now, now⟩ :: s.events ∧
    s'.items = s.items ∧ s'.canvas_items = s.canvas_items ∧
    kind ∈ eventKinds ∧ endOk startAt endAt ∧ ¬(∃ e ∈ s.events, e.id = id) ∧
    parentOk s.events kind parentId := by
  unfold createEvent at h
  split_ifs at h with h1 h2 h3 h4
  · cases h
    exact ⟨rfl, rfl, rfl, h1, h2, h3, h4⟩

lemma updateEvent_ok {s s₂ : Store} {id : String} {f : EventFields} {now : String}
    (h : updateEvent s id f now = .ok s₂) :
    ∃ old, s.events.find? (fun e => decide (e.id = id)) = some old ∧
      old ∈ s.events ∧ old.id = id ∧
      s₂.events = updatedEvents s id (applyFields old f now) ∧
      s₂.items = s.items ∧ s₂.canvas_items = s.canvas_items ∧
      (applyFields old f now).type ∈ eventKinds ∧
      endOk (applyFields old f now).start_at (applyFields old f now).end_at ∧
      parentOk (updatedEvents s id (applyFields old f now))
        (applyFields old f now).type (applyFields old f now).parent_id ∧
      (∀ c ∈ s.events, c.parent_id = some id →
        kindLevel (applyFields old f now).type < kindLevel c.type) := by
  unfold updateEvent at h
  split at h
  · exact absurd h (by simp)
  · rename_i old hfind
    split_ifs at h with h1 h2 h3 h4
    cases h
    have hpa := List.find?_some hfind
    simp only [decide_eq_true_eq] at hpa
    exact ⟨old, hfind, List.mem_of_find?_eq_some hfind,
      hpa, rfl, rfl, rfl, h1, h2, h3, h4⟩

lemma parentOk_cons {events : List EventRow} {kind : String} {o : Option String}
    (r : EventRow) (h : parentOk events kind o) : parentOk (r :: events) kind o := by
  cases o with
  | none => exact h
  | some p =>
    obtain ⟨hk, pe, hpe, hid, hlt⟩ := h
    exact ⟨hk, pe, List.mem_cons_of_mem _ hpe, hid, hlt⟩

/-! ## Claim C1 -/

/-- C1: after every create/update operation, each non-`year` event has a
`parent_id` that resolves to an existing event whose kind strictly
precedes its own in the fixed order year → period → event → item, and
each `year` event has no parent: the `hierarchyOk` invariant is preserved
by `createEvent` and `updateEvent`. -/
theorem c1_hierarchy_invariant (s : Store) (id kind : String) (title : Option String)
    (startAt : String) (endAt : Option String) (parentId coverMediaId : Option String)
    (now : String) (uid : String) (f : EventFields) (now' : String)
    (hinv : hierarchyOk s) :
    (∀ s', createEvent s id kind title startAt endAt parentId coverMediaId now = .ok s' →
      hierarchyOk s') ∧
    (∀ s₂, updateEvent s uid f now' = .ok s₂ → hierarchyOk s₂) := by
  constructor
  · intro s' h
    obtain ⟨hev, -, -, hkind, -, -, hpar⟩ := createEvent_ok h
    intro e he
    rw [hev] at he
    rw [hev]
    rcases List.mem_cons.mp he with rfl | he'
    · exact ⟨hkind, parentOk_cons _ hpar⟩
    · obtain ⟨hk', hp'⟩ := hinv e he'
      exact ⟨hk', parentOk_cons _ hp'⟩
  · intro s₂ h
    obtain ⟨old, hfind, hold, holdid, hev, -, -, hkind, -, hpar, hchild⟩ := updateEvent_ok h
    intro x hx
    rw [hev] at hx
    rw [hev]
    unfold updatedEvents at hx ⊢
    rw [List.mem_map] at hx
    obtain ⟨x₀, hx₀, hxeq⟩ := hx
    by_cases hid : x₀.id = uid
    · rw [if_pos hid] at hxeq
      subst hxeq
      exact ⟨hkind, hpar⟩
    · rw [if_neg hid] at hxeq
      subst hxeq
      obtain ⟨hk0, hp0⟩ := hinv x₀ hx₀
      refine ⟨hk0, ?_⟩
      cases hpid : x₀.parent_id with
      | none =>
        rw [hpid] at hp0
        exact hp0
      | some p =>
        rw [hpid] at hp0
        obtain ⟨hk, pe, hpe, hpeid, hlt⟩ := hp0
        by_cases hpidid : p = uid
        · refine ⟨hk, applyFields old f now', ?_, ?_, ?_⟩
          · rw [List.mem_map]
            exact ⟨old, hold, by rw [if_pos holdid]⟩
          · show (applyFields old f now').id = p
            rw [hpidid]
            exact holdid
          · exact hchild x₀ hx₀ (by rw [hpid, hpidid])
        · refine ⟨hk, pe, ?_, hpeid, hlt⟩
          rw [List.mem_map]
          refine ⟨pe, hpe, ?_⟩
          rw [if_neg (by rw [hpeid]; exact hpidid)]

/-- Witness field set for the update half of C1 and C4: retitle only. -/
def demoFields : EventFields := ⟨none, some (some "renamed"), none, none, none, none⟩

/-- Witness for C1 at the concrete `baseStore`: creating a `period` under
the existing year and retitling the year both preserve the hierarchy
invariant. -/
theorem c1_hierarchy_invariant_witness :
    hierarchyOk baseStore ∧
    ((∀ s', createEvent baseStore "p1" "period" none "2020-06-01" none (some "e1") none "t1" =
        .ok s' → hierarchyOk s') ∧
      (∀ s₂, updateEvent baseStore "e1" demoFields "t1" = .ok s₂ → hierarchyOk s₂)) :=
  ⟨by decide,
    c1_hierarchy_invariant baseStore "p1" "period" none "2020-06-01" none (some "e1") none
      "t1" "e1" demoFields "t1" (by decide)⟩

/-! ## Claim C4 -/

/-- C4: for every event row with both instants set, `end_at` is not
earlier than `start_at` — the `timeOk` invariant is preserved by
`createEvent` and `updateEvent` — and an attempt to persist an event
whose `end_at` precedes `start_at` is rejected with `ValidationError`
before any write (the operation returns no new store). -/
theorem c4_time_invariant (s : Store) (id kind : String) (title : Option String)
    (startAt : String) (endAt : Option String) (parentId coverMediaId : Option String)
    (now : String) (uid : String) (f : EventFields) (now' : String)
    (hinv : timeOk s) :
    (∀ s', createEvent s id kind title startAt endAt parentId coverMediaId now = .ok s' →
      timeOk s') ∧
    (∀ s₂, updateEvent s uid f now' = .ok s₂ → timeOk s₂) ∧
    (∀ t, t < startAt →
      createEvent s id kind title startAt (some t) parentId coverMediaId now =
        .error .validationError) := by
  refine ⟨?_, ?_, ?_⟩
  · intro s' h
    obtain ⟨hev, -, -, -, hend, -, -⟩ := createEvent_ok h
    intro e he
    rw [hev] at he
    rcases List.mem_cons.mp he with rfl | he'
    · exact hend
    · exact hinv e he'
  · intro s₂ h
    obtain ⟨old, -, -, -, hev, -, -, -, hend, -, -⟩ := updateEvent_ok h
    intro x hx
    rw [hev] at hx
    unfold updatedEvents at hx
    rw [List.mem_map] at hx
    obtain ⟨x₀, hx₀, hxeq⟩ := hx
    by_cases hid : x₀.id = uid
    · rw [if_pos hid] at hxeq
      subst hxeq
      exact hend
    · rw [if_neg hid] at hxeq
      subst hxeq
      exact hinv x₀ hx₀
  · intro t ht
    unfold createEvent
    by_cases h1 : kind ∈ eventKinds
    · rw [if_pos h1, if_neg (show ¬ endOk startAt (some t) from fun hh => hh ht)]
    · rw [if_neg h1]

/-- Witness for C4 at the concrete `baseStore`: a valid create and a
retitle preserve the invariant, and a reversed interval is rejected. -/
theorem c4_time_invariant_witness :
    timeOk baseStore ∧
    ((∀ s', createEvent baseStore "p1" "period" none "2020-06-01" (some "2020-08-01")
        (some "e1") none "t1" = .ok s' → timeOk s') ∧
      (∀ s₂, updateEvent baseStore "e1" demoFields "t1" = .ok s₂ → timeOk s₂) ∧
      (∀ t, t < "2020-06-01" →
        createEvent baseStore "p1" "period" none "2020-06-01" (some t) (some "e1") none "t1" =
          .error .validationError)) :=
  ⟨by decide,
    c4_time_invariant baseStore "p1" "period" none "2020-06-01" (some "2020-08-01")
      (some "e1") none "t1" "e1" demoFields "t1" (by decide)⟩

/-! ## Claim C6 -/

/-- C6: the `events.type` and `items.item_type` columns only ever hold
values of their literal enum sets — any schema-valid store satisfies
`enumOk`, the storage engine's `CHECK` clause rejects a raw insert of an
out-of-set row, the boundary operations reject an out-of-set value with
`ValidationError`, and `createEvent`/`createItem` preserve `enumOk`. -/
theorem c6_enum_constraints (s : Store) (id kind : String) (title : Option String)
    (startAt : String) (endAt : Option String) (parentId coverMediaId : Option String)
    (now : String) (iid eventId itemType content : String)
    (caption happenedAt : Option String) (placeLat placeLng : Option ℚ)
    (placeLabel : Option String) (e : EventRow) (i : ItemRow)
    (hs : enumOk s) :
    (schemaValid s → enumOk s) ∧
    (kind ∉ eventKinds →
      createEvent s id kind title startAt endAt parentId coverMediaId now =
        .error .validationError) ∧
    (itemType ∉ itemTypes →
      createItem s iid eventId itemType content caption happenedAt placeLat placeLng
        placeLabel = .error .validationError) ∧
    (e.type ∉ eventKinds → insertEventRaw s e = .error .constraintViolation) ∧
    (i.item_type ∉ itemTypes → insertItemRaw s i = .error .constraintViolation) ∧
    (∀ s', createEvent s id kind title startAt endAt parentId coverMediaId now = .ok s' →
      enumOk s') ∧
    (∀ s₂, createItem s iid eventId itemType content caption happenedAt placeLat placeLng
      placeLabel = .ok s₂ → enumOk s₂) := by
  refine ⟨fun hv => ⟨hv.2.2.2.1, hv.2.2.2.2.2.1⟩, ?_, ?_, ?_, ?_, ?_, ?_⟩
  · intro hk
    unfold createEvent
    rw [if_neg hk]
  · intro hit
    unfold createItem
    rw [if_neg hit]
  · intro he
    unfold insertEventRaw
    split_ifs with hv
    · exact absurd (hv.2.2.2.1 e (by simp)) he
    · rfl
  · intro hi
    unfold insertItemRaw
    split_ifs with hv
    · exact absurd (hv.2.2.2.2.2.1 i (by simp)) hi
    · rfl
  · intro s' h
    obtain ⟨hev, hit, -, hkind, -, -, -⟩ := createEvent_ok h
    constructor
    · intro x hx
      rw [hev] at hx
      rcases List.mem_cons.mp hx with rfl | hx'
      · exact hkind
      · exact hs.1 x hx'
    · intro j hj
      rw [hit] at hj
      exact hs.2 j hj
  · intro s₂ h
    unfold createItem at h
    split_ifs at h with h1 h2 h3
    cases h
    constructor
    · intro x hx
      exact hs.1 x hx
    · intro j hj
      rcases List.mem_cons.mp hj with rfl | hj'
      · exact h1
      · exact hs.2 j hj'

/-- Witness for C6 at the concrete `baseStore` with concrete out-of-set
enum values. -/
theorem c6_enum_constraints_witness :
    enumOk baseStore ∧
    ((schemaValid baseStore → enumOk baseStore) ∧
      ("banana" ∉ eventKinds →
        createEvent baseStore "p1" "banana" none "2020-06-01" none (some "e1") none "t1" =
          .error .validationError) ∧
      ("gif" ∉ itemTypes →
        createItem baseStore "i2" "e1" "gif" "c" none none none none none =
          .error .validationError) ∧
      (cyclicRow.type ∉ eventKinds →
        insertEventRaw baseStore cyclicRow = .error .constraintViolation) ∧
      (itemRow1.item_type ∉ itemTypes →
        insertItemRaw baseStore itemRow1 = .error .constraintViolation) ∧
      (∀ s', createEvent baseStore "p1" "banana" none "2020-06-01" none (some "e1") none "t1" =
        .ok s' → enumOk s') ∧
      (∀ s₂, createItem baseStore "i2" "e1" "gif" "c" none none none none none = .ok s₂ →
        enumOk s₂)) :=
  ⟨by decide,
    c6_enum_constraints baseStore "p1" "banana" none "2020-06-01" none (some "e1") none "t1"
      "i2" "e1" "gif" "c" none none none none none cyclicRow itemRow1 (by decide)⟩

/-! ## Claims C2 and C3 -/

lemma placeItem_ok {s s' : Store} {eventId itemId : String} {x y sc rot : ℚ} {z : Int}
    (h : placeItem s eventId itemId x y sc rot z = .ok s') :
    ∃ it, s.items.find? (fun i => decide (i.id = itemId)) = some it ∧
      it ∈ s.items ∧ it.id = itemId ∧ it.event_id = eventId ∧
      s'.events = s.events ∧ s'.items = s.items ∧
      s'.canvas_items = ⟨eventId, itemId, x, y, sc, rot, z⟩ ::
        s.canvas_items.filter (fun c =>
          decide (¬(c.event_id = eventId ∧ c.item_id = itemId))) := by
  unfold placeItem at h
  split at h
  · exact absurd h (by simp)
  · rename_i it hfind
    split_ifs at h with h1
    cases h
    have hpa := List.find?_some hfind
    simp only [decide_eq_true_eq] at hpa
    exact ⟨it, hfind, List.mem_of_find?_eq_some hfind, hpa, h1, rfl, rfl, rfl⟩

lemma filter_key_of_filter_not_key (eid iid : String) (l : List CanvasItemRow) :
    (l.filter (fun c => decide (¬(c.event_id = eid ∧ c.item_id = iid)))).filter
      (fun c => decide (c.event_id = eid ∧ c.item_id = iid)) = [] := by
  induction l with
  | nil => rfl
  | cons a t ih =>
    by_cases h1 : a.event_id = eid
    · by_cases h2 : a.item_id = iid
      · simp [List.filter_cons, h1, h2, ih]
      · simp [List.filter_cons, h1, h2, ih]
    · simp [List.filter_cons, h1, ih]

lemma placeItem_filter_key {s s' : Store} {eid iid : String} {x y sc rot : ℚ} {z : Int}
    (h : placeItem s eid iid x y sc rot z = .ok s') :
    s'.canvas_items.filter (fun c => decide (c.event_id = eid ∧ c.item_id = iid)) =
      [⟨eid, iid, x, y, sc, rot, z⟩] := by
  obtain ⟨it, -, -, -, -, -, -, hcv⟩ := placeItem_ok h
  rw [hcv, List.filter_cons_of_pos (by simp), filter_key_of_filter_not_key]

lemma placeItem_nodup {s s' : Store} {eid iid : String} {x y sc rot : ℚ} {z : Int}
    (hnd : canvasKeyNodup s) (h : placeItem s eid iid x y sc rot z = .ok s') :
    canvasKeyNodup s' := by
  obtain ⟨it, -, -, -, -, -, -, hcv⟩ := placeItem_ok h
  unfold canvasKeyNodup at hnd ⊢
  rw [hcv, List.map_cons]
  refine List.Nodup.cons ?_ ?_
  · intro hmem
    rw [List.mem_map] at hmem
    obtain ⟨c, hc, hck⟩ := hmem
    rw [List.mem_filter] at hc
    have h2 := of_decide_eq_true hc.2
    injection hck with hA hB
    exact h2 ⟨hA, hB⟩
  · exact List.Sublist.nodup ((List.filter_sublist _).map _) hnd

/-- C2: at most one `canvas_items` row exists per (event_id, item_id)
pair — the schema's composite primary key guarantees it for any
schema-valid store and `placeItem` preserves it — and placing the same
pair twice with different coordinates upserts: after each call exactly
one row for the pair is present and it carries the latest coordinates. -/
theorem c2_canvas_upsert (s : Store) (eid iid : String) (x y sc rot x₂ y₂ sc₂ rot₂ : ℚ)
    (z z₂ : Int) (hnd : canvasKeyNodup s) :
    (schemaValid s → canvasKeyNodup s) ∧
    (∀ s', placeItem s eid iid x y sc rot z = .ok s' → canvasKeyNodup s' ∧
      s'.canvas_items.filter (fun c => decide (c.event_id = eid ∧ c.item_id = iid)) =
        [⟨eid, iid, x, y, sc, rot, z⟩]) ∧
    (∀ s' s₂, placeItem s eid iid x y sc rot z = .ok s' →
      placeItem s' eid iid x₂ y₂ sc₂ rot₂ z₂ = .ok s₂ →
      canvasKeyNodup s₂ ∧
      s₂.canvas_items.filter (fun c => decide (c.event_id = eid ∧ c.item_id = iid)) =
        [⟨eid, iid, x₂, y₂, sc₂, rot₂, z₂⟩]) := by
  refine ⟨fun hv => hv.2.2.1, ?_, ?_⟩
  · intro s' h
    exact ⟨placeItem_nodup hnd h, placeItem_filter_key h⟩
  · intro s' s₂ h h₂
    exact ⟨placeItem_nodup (placeItem_nodup hnd h) h₂, placeItem_filter_key h₂⟩

/-- Witness for C2 at the concrete `baseStore`: placing item "i1" on
event "e1" twice with different coordinates. -/
theorem c2_canvas_upsert_witness :
    canvasKeyNodup baseStore ∧
    ((schemaValid baseStore → canvasKeyNodup baseStore) ∧
      (∀ s', placeItem baseStore "e1" "i1" 1 2 1 0 0 = .ok s' → canvasKeyNodup s' ∧
        s'.canvas_items.filter (fun c => decide (c.event_id = "e1" ∧ c.item_id = "i1")) =
          [⟨"e1", "i1", 1, 2, 1, 0, 0⟩]) ∧
      (∀ s' s₂, placeItem baseStore "e1" "i1" 1 2 1 0 0 = .ok s' →
        placeItem s' "e1" "i1" 3 4 1 0 0 = .ok s₂ →
        canvasKeyNodup s₂ ∧
        s₂.canvas_items.filter (fun c => decide (c.event_id = "e1" ∧ c.item_id = "i1")) =
          [⟨"e1", "i1", 3, 4, 1, 0, 0⟩])) :=
  ⟨by decide, c2_canvas_upsert baseStore "e1" "i1" 1 2 1 0 3 4 1 0 0 0 (by decide)⟩

lemma items_id_inj {s : Store} (hnd : itemIdsNodup s) {i j : ItemRow}
    (hi : i ∈ s.items) (hj : j ∈ s.items) (hij : i.id = j.id) : i = j :=
  List.inj_on_of_nodup_map hnd hi hj hij

/-- C3: every `canvas_items` row is matched by exactly one item row with
the same `item_id` and the same `event_id` (after any successful
`placeItem` on a store satisfying the invariant), and a placement whose
referenced item belongs to a different event — or references no item —
is never stored: `placeItem` returns an error. -/
theorem c3_placement_references (s : Store) (eid iid : String) (x y sc rot : ℚ) (z : Int)
    (hnd : itemIdsNodup s) (href : canvasRefOk s) :
    (∀ s', placeItem s eid iid x y sc rot z = .ok s' →
      ∀ c ∈ s'.canvas_items, ∃! i : ItemRow,
        i ∈ s'.items ∧ i.id = c.item_id ∧ i.event_id = c.event_id) ∧
    ((∀ i ∈ s.items, i.id = iid → i.event_id ≠ eid) →
      ∃ err, placeItem s eid iid x y sc rot z = .error err) := by
  constructor
  · intro s' h c hc
    obtain ⟨it, hfind, hit, hitid, hitev, -, hitems, hcv⟩ := placeItem_ok h
    rw [hcv] at hc
    rcases List.mem_cons.mp hc with rfl | hc'
    · refine ⟨it, ⟨by rw [hitems]; exact hit, hitid, hitev⟩, ?_⟩
      rintro j ⟨hj, hjid, hjev⟩
      rw [hitems] at hj
      exact items_id_inj hnd hj hit (by rw [hjid, hitid])
    · have hc'' := (List.mem_filter.mp hc').1
      obtain ⟨i, hi, hiid, hiev⟩ := href c hc''
      refine ⟨i, ⟨by rw [hitems]; exact hi, hiid, hiev⟩, ?_⟩
      rintro j ⟨hj, hjid, hjev⟩
      rw [hitems] at hj
      exact items_id_inj hnd hj hi (by rw [hjid, hiid])
  · intro hno
    unfold placeItem
    cases hfind : s.items.find? (fun i => decide (i.id = iid)) with
    | none => exact ⟨.notFoundError, rfl⟩
    | some it =>
      have hmem := List.mem_of_find?_eq_some hfind
      have hpa := List.find?_some hfind
      simp only [decide_eq_true_eq] at hpa
      refine ⟨.conflictError, ?_⟩
      dsimp only
      rw [if_neg (hno it hmem hpa)]

/-- Witness for C3 at the concrete `baseStore`. -/
theorem c3_placement_references_witness :
    itemIdsNodup baseStore ∧ canvasRefOk baseStore ∧
    ((∀ s', placeItem baseStore "e1" "i1" 1 2 1 0 0 = .ok s' →
      ∀ c ∈ s'.canvas_items, ∃! i : ItemRow,
        i ∈ s'.items ∧ i.id = c.item_id ∧ i.event_id = c.event_id) ∧
    ((∀ i ∈ baseStore.items, i.id = "i1" → i.event_id ≠ "e1") →
      ∃ err, placeItem baseStore "e1" "i1" 1 2 1 0 0 = .error err)) :=
  ⟨by decide, by decide,
    c3_placement_references baseStore "e1" "i1" 1 2 1 0 0 (by decide) (by decide)⟩

/-! ## Claim C5: cascade deletion

The descendant set of an event is computed as the least fixed point of a
one-step closure operator on `Finset String`, iterated enough times to
saturate; `Desc` is the declarative descendant relation it realizes. -/

/-- The declarative descendant relation: `Desc events root x` holds when
`x` is `root` itself or the id of an event whose parent chain reaches
`root` through rows of `events`. -/
inductive Desc (events : List EventRow) (root : String) : String → Prop
  | refl : Desc events root root
  | child (e : EventRow) (p : String) (he : e ∈ events) (hp : e.parent_id = some p)
      (hd : Desc events root p) : Desc events root e.id

/-- Whether an optional parent pointer lands in the set `D`. -/
def parentIn (D : Finset String) : Option String → Bool
  | none => false
  | some p => decide (p ∈ D)

/-- One closure step: add the ids of all events whose parent is already
in the set. -/
def descStep (events : List EventRow) (D : Finset String) : Finset String :=
  D ∪ ((events.filter (fun e => parentIn D e.parent_id)).map (·.id)).toFinset

/-- The set of ids deleted by a cascade rooted at `root`: the closure
step iterated past saturation, starting from the root alone. -/
def deletedSet (events : List EventRow) (root : String) : Finset String :=
  (descStep events)^[((events.map (·.id)).toFinset).card + 1] {root}

lemma iterate_mono_of_le {α : Type} [DecidableEq α] (g : Finset α → Finset α)
    (hg : ∀ D, D ⊆ g D) (D0 : Finset α) (k : ℕ) : g^[k] D0 ⊆ g^[k+1] D0 := by
  rw [Function.iterate_succ_apply']
  exact hg _

lemma iterate_start_subset {α : Type} [DecidableEq α] (g : Finset α → Finset α)
    (hg : ∀ D, D ⊆ g D) (D0 : Finset α) (k : ℕ) : D0 ⊆ g^[k] D0 := by
  induction k with
  | zero => exact subset_refl _
  | succ n ih => exact ih.trans (iterate_mono_of_le g hg D0 n)

lemma iterate_bounded {α : Type} [DecidableEq α] (g : Finset α → Finset α) (E : Finset α)
    (hb : ∀ D, g D ⊆ D ∪ E) (D0 : Finset α) (k : ℕ) : g^[k] D0 ⊆ D0 ∪ E := by
  induction k with
  | zero => exact Finset.subset_union_left
  | succ n ih =>
    rw [Function.iterate_succ_apply']
    exact (hb _).trans (Finset.union_subset ih Finset.subset_union_right)

lemma iterate_stab {α : Type} [DecidableEq α] (g : Finset α → Finset α) (D0 : Finset α)
    (k : ℕ) (hfix : g (g^[k] D0) = g^[k] D0) : ∀ j, k ≤ j → g^[j] D0 = g^[k] D0 := by
  intro j hj
  induction hj with
  | refl => rfl
  | step hm ih =>
    rw [Function.iterate_succ_apply', ih, hfix]

lemma iterate_card_growth {α : Type} [DecidableEq α] (g : Finset α → Finset α)
    (hg : ∀ D, D ⊆ g D) (D0 : Finset α) :
    ∀ k, (∀ j, j < k → g^[j+1] D0 ≠ g^[j] D0) → D0.card + k ≤ (g^[k] D0).card := by
  intro k
  induction k with
  | zero =>
    intro _
    simp
  | succ n ih =>
    intro hne
    have h1 : D0.card + n ≤ (g^[n] D0).card := ih (fun j hj => hne j (Nat.lt_succ_of_lt hj))
    have h2 : (g^[n] D0).card < (g^[n+1] D0).card := by
      apply Finset.card_lt_card
      rw [Finset.ssubset_iff_subset_ne]
      exact ⟨iterate_mono_of_le g hg D0 n, fun hh => hne n (Nat.lt_succ_self n) hh.symm⟩
    omega

lemma iterate_reaches_fix {α : Type} [DecidableEq α] (g : Finset α → Finset α)
    (E : Finset α) (hg : ∀ D, D ⊆ g D) (hb : ∀ D, g D ⊆ D ∪ E) (D0 : Finset α) :
    g (g^[E.card + 1] D0) = g^[E.card + 1] D0 := by
  by_cases hex : ∃ j, j ≤ E.card ∧ g^[j+1] D0 = g^[j] D0
  · obtain ⟨j, hj, hfix⟩ := hex
    have hfix' : g (g^[j] D0) = g^[j] D0 := by
      rw [Function.iterate_succ_apply'] at hfix
      exact hfix
    have h1 := iterate_stab g D0 j hfix' (E.card + 1) (by omega)
    rw [h1, hfix']
  · push_neg at hex
    have hne : ∀ j, j < E.card + 1 → g^[j+1] D0 ≠ g^[j] D0 := fun j hj => hex j (by omega)
    have h1 := iterate_card_growth g hg D0 (E.card + 1) hne
    have h2 : (g^[E.card + 1] D0).card ≤ (D0 ∪ E).card :=
      Finset.card_le_card (iterate_bounded g E hb D0 _)
    have h3 : (D0 ∪ E).card ≤ D0.card + E.card := Finset.card_union_le _ _
    omega

lemma descStep_bounded (events : List EventRow) (D : Finset String) :
    descStep events D ⊆ D ∪ (events.map (·.id)).toFinset := by
  unfold descStep
  apply Finset.union_subset Finset.subset_union_left
  intro x hx
  rw [List.mem_toFinset, List.mem_map] at hx
  obtain ⟨e, he, rfl⟩ := hx
  apply Finset.mem_union_right
  rw [List.mem_toFinset, List.mem_map]
  exact ⟨e, (List.mem_filter.mp he).1, rfl⟩

lemma deletedSet_closed (events : List EventRow) (root : String) :
    descStep events (deletedSet events root) = deletedSet events root := by
  unfold deletedSet
  apply iterate_reaches_fix (descStep events) ((events.map (·.id)).toFinset)
    (fun _ => Finset.subset_union_left) (descStep_bounded events) {root}

lemma root_mem_deletedSet (events : List EventRow) (root : String) :
    root ∈ deletedSet events root := by
  unfold deletedSet
  exact iterate_start_subset _ (fun _ => Finset.subset_union_left) {root} _
    (Finset.mem_singleton_self root)

lemma iterate_descStep_sound (events : List EventRow) (root : String) :
    ∀ k x, x ∈ (descStep events)^[k] {root} → Desc events root x := by
  intro k
  induction k with
  | zero =>
    intro x hx
    rw [Function.iterate_zero_apply, Finset.mem_singleton] at hx
    rw [hx]
    exact Desc.refl
  | succ n ih =>
    intro x hx
    rw [Function.iterate_succ_apply'] at hx
    unfold descStep at hx
    rw [Finset.mem_union] at hx
    rcases hx with hx | hx
    · exact ih x hx
    · rw [List.mem_toFinset, List.mem_map] at hx
      obtain ⟨e, he, rfl⟩ := hx
      rw [List.mem_filter] at he
      cases hp : e.parent_id with
      | none =>
        rw [hp] at he
        exact absurd he.2 (by simp [parentIn])
      | some p =>
        rw [hp] at he
        have hpD : p ∈ (descStep events)^[n] {root} := by
          have h2 := he.2
          simp only [parentIn, decide_eq_true_eq] at h2
          exact h2
        exact Desc.child e p he.1 hp (ih p hpD)

lemma deletedSet_sound {events : List EventRow} {root x : String}
    (hx : x ∈ deletedSet events root) : Desc events root x :=
  iterate_descStep_sound events root _ x hx

lemma deletedSet_complete {events : List EventRow} {root x : String}
    (hd : Desc events root x) : x ∈ deletedSet events root := by
  induction hd with
  | refl => exact root_mem_deletedSet events root
  | child e p he hp hdp ih =>
    rw [← deletedSet_closed events root]
    unfold descStep
    apply Finset.mem_union_right
    rw [List.mem_toFinset, List.mem_map]
    refine ⟨e, ?_, rfl⟩
    rw [List.mem_filter]
    refine ⟨he, ?_⟩
    rw [hp]
    simp only [parentIn, decide_eq_true_eq]
    exact ih

/-- Modelled from the spec: `deleteEvent` (§4.2) — NotFoundError if the
id is absent; with `cascade = false`, ConflictError when any item or
child event still references the id (the store is unchanged: no new
store is produced); with `cascade = true`, one atomic step removes all
descendant events (the `deletedSet` closure), all items owned by any
deleted event, all placements referencing any deleted item, and the
event itself — the result is returned whole, so a partial cascade is
never observable. -/
def deleteEvent (s : Store) (id : String) (cascade : Bool) : Except StoreError Store :=
  if ∃ e ∈ s.events, e.id = id then
    match cascade with
    | true =>
      .ok { events := s.events.filter (fun e => decide (e.id ∉ deletedSet s.events id)),
            items := s.items.filter (fun i => decide (i.event_id ∉ deletedSet s.events id)),
            canvas_items := s.canvas_items.filter (fun c => decide (c.item_id ∉
              ((s.items.filter (fun i =>
                decide (i.event_id ∈ deletedSet s.events id))).map (·.id)))) }
    | false =>
      if (∃ i ∈ s.items, i.event_id = id) ∨ (∃ e ∈ s.events, e.parent_id = some id) then
        .error .conflictError
      else .ok { s with events := s.events.filter (fun e => decide (e.id ≠ id)) }
  else .error .notFoundError

lemma deleteEvent_cascade_ok {s s' : Store} {id : String}
    (h : deleteEvent s id true = .ok s') :
    s'.events = s.events.filter (fun e => decide (e.id ∉ deletedSet s.events id)) ∧
    s'.items = s.items.filter (fun i => decide (i.event_id ∉ deletedSet s.events id)) ∧
    s'.canvas_items = s.canvas_items.filter (fun c => decide (c.item_id ∉
      ((s.items.filter (fun i =>
        decide (i.event_id ∈ deletedSet s.events id))).map (·.id)))) := by
  unfold deleteEvent at h
  split_ifs at h with h1 h2
  all_goals cases h
  all_goals exact ⟨rfl, rfl, rfl⟩

lemma mem_deletedItemIds_iff (s : Store) (id x : String) :
    (x ∈ (s.items.filter (fun i =>
        decide (i.event_id ∈ deletedSet s.events id))).map (·.id)) ↔
      ∃ i ∈ s.items, i.id = x ∧ Desc s.events id i.event_id := by
  rw [List.mem_map]
  constructor
  · rintro ⟨i, hi, rfl⟩
    rw [List.mem_filter] at hi
    exact ⟨i, hi.1, rfl, deletedSet_sound (of_decide_eq_true hi.2)⟩
  · rintro ⟨i, hi, rfl, hd⟩
    exact ⟨i, List.mem_filter.mpr ⟨hi, decide_eq_true (deletedSet_complete hd)⟩, rfl⟩

/-- C5: with `cascade = false`, `deleteEvent` fails with `ConflictError`
(producing no new store) whenever any item or child event still
references the id; with `cascade = true` it removes, in one atomic
result, exactly the events that are descendants of the id (in the
declarative sense of `Desc`), exactly the items owned by a deleted
event, and exactly the placements referencing a deleted item, along
with the event itself — everything else survives, so no partial cascade
is observable. -/
theorem c5_delete_event (s : Store) (id : String) (hex : ∃ e ∈ s.events, e.id = id) :
    (((∃ i ∈ s.items, i.event_id = id) ∨ (∃ e ∈ s.events, e.parent_id = some id)) →
      deleteEvent s id false = .error .conflictError) ∧
    (∀ s', deleteEvent s id true = .ok s' →
      (∀ e ∈ s'.events, e ∈ s.events ∧ e.id ≠ id) ∧
      (∀ e ∈ s.events, (Desc s.events id e.id → e ∉ s'.events) ∧
        (¬ Desc s.events id e.id → e ∈ s'.events)) ∧
      (∀ i ∈ s.items, (Desc s.events id i.event_id → i ∉ s'.items) ∧
        (¬ Desc s.events id i.event_id → i ∈ s'.items)) ∧
      (∀ i ∈ s'.items, i ∈ s.items) ∧
      (∀ c ∈ s.canvas_items,
        ((∃ i ∈ s.items, i.id = c.item_id ∧ Desc s.events id i.event_id) →
          c ∉ s'.canvas_items) ∧
        (¬(∃ i ∈ s.items, i.id = c.item_id ∧ Desc s.events id i.event_id) →
          c ∈ s'.canvas_items)) ∧
      (∀ c ∈ s'.canvas_items, c ∈ s.canvas_items)) := by
  constructor
  · intro hconf
    unfold deleteEvent
    rw [if_pos hex]
    dsimp only
    rw [if_pos hconf]
  · intro s' h
    obtain ⟨hev, hit, hcv⟩ := deleteEvent_cascade_ok h
    refine ⟨?_, ?_, ?_, ?_, ?_, ?_⟩
    · intro e he
      rw [hev, List.mem_filter] at he
      have hnd := of_decide_eq_true he.2
      refine ⟨he.1, fun hc => hnd ?_⟩
      rw [hc]
      exact root_mem_deletedSet s.events id
    · intro e he
      constructor
      · intro hd hmem
        rw [hev, List.mem_filter] at hmem
        exact of_decide_eq_true hmem.2 (deletedSet_complete hd)
      · intro hnd
        rw [hev, List.mem_filter]
        exact ⟨he, decide_eq_true (fun hmem => hnd (deletedSet_sound hmem))⟩
    · intro i hi
      constructor
      · intro hd hmem
        rw [hit, List.mem_filter] at hmem
        exact of_decide_eq_true hmem.2 (deletedSet_complete hd)
      · intro hnd
        rw [hit, List.mem_filter]
        exact ⟨hi, decide_eq_true (fun hmem => hnd (deletedSet_sound hmem))⟩
    · intro i hi
      rw [hit, List.mem_filter] at hi
      exact hi.1
    · intro c hc
      constructor
      · intro hd hmem
        rw [hcv, List.mem_filter] at hmem
        exact of_decide_eq_true hmem.2 ((mem_deletedItemIds_iff s id c.item_id).mpr hd)
      · intro hnd
        rw [hcv, List.mem_filter]
        refine ⟨hc, decide_eq_true (fun hmem => ?_)⟩
        exact hnd ((mem_deletedItemIds_iff s id c.item_id).mp hmem)
    · intro c hc
      rw [hcv, List.mem_filter] at hc
      exact hc.1

/-- A three-level hierarchy with one item and one placement, used to
witness C5 concretely. -/
def y1Row : EventRow := ⟨"y1", "year", none, "2020-01-01", none, none, none, "t0", "t0"⟩

/-- The period under `y1Row`. -/
def p1Row : EventRow :=
  ⟨"p1", "period", none, "2020-06-01", some "2020-08-01", some "y1", none, "t0", "t0"⟩

/-- The event under `p1Row`. -/
def e1Row : EventRow := ⟨"ev1", "event", none, "2020-07-01", none, some "p1", none, "t0", "t0"⟩

/-- The item owned by `e1Row`. -/
def i1Row : ItemRow := ⟨"it1", "ev1", "text", "hello", none, none, none, none, none⟩

/-- The placement of `i1Row` on `e1Row`'s canvas. -/
def cv1Row : CanvasItemRow := ⟨"ev1", "it1", 10, 20, 1, 0, 0⟩

/-- The concrete store for the C5 witness. -/
def cascadeStore : Store := ⟨[y1Row, p1Row, e1Row], [i1Row], [cv1Row]⟩

/-- Witness for C5 at the concrete `cascadeStore`, deleting the period
"p1" (referenced by the child event "ev1"). -/
theorem c5_delete_event_witness :
    (∃ e ∈ cascadeStore.events, e.id = "p1") ∧
    ((((∃ i ∈ cascadeStore.items, i.event_id = "p1") ∨
        (∃ e ∈ cascadeStore.events, e.parent_id = some "p1")) →
      deleteEvent cascadeStore "p1" false = .error .conflictError) ∧
    (∀ s', deleteEvent cascadeStore "p1" true = .ok s' →
      (∀ e ∈ s'.events, e ∈ cascadeStore.events ∧ e.id ≠ "p1") ∧
      (∀ e ∈ cascadeStore.events,
        (Desc cascadeStore.events "p1" e.id → e ∉ s'.events) ∧
        (¬ Desc cascadeStore.events "p1" e.id → e ∈ s'.events)) ∧
      (∀ i ∈ cascadeStore.items,
        (Desc cascadeStore.events "p1" i.event_id → i ∉ s'.items) ∧
        (¬ Desc cascadeStore.events "p1" i.event_id → i ∈ s'.items)) ∧
      (∀ i ∈ s'.items, i ∈ cascadeStore.items) ∧
      (∀ c ∈ cascadeStore.canvas_items,
        ((∃ i ∈ cascadeStore.items, i.id = c.item_id ∧
            Desc cascadeStore.events "p1" i.event_id) → c ∉ s'.canvas_items) ∧
        (¬(∃ i ∈ cascadeStore.items, i.id = c.item_id ∧
            Desc cascadeStore.events "p1" i.event_id) → c ∈ s'.canvas_items)) ∧
      (∀ c ∈ s'.canvas_items, c ∈ cascadeStore.canvas_items))) :=
  ⟨by decide, c5_delete_event cascadeStore "p1" (by decide)⟩
